import Mathlib

/-!
Verification of the environment registry and resolution logic of `zap.py`,
a light-weight virtual-environment manager.

The registry is a directory tree `ROOT/<version-tag>/<env-name>/`; the presence
of the marker file `pyvenv.cfg` inside an environment directory signifies a
valid environment.  We embed the filesystem state that the program inspects as
a two-level tree: the entries of `ENV_ROOT` in iteration order, each with its
child entries, where each entry records its name, whether it is a directory,
and whether `<entry>/pyvenv.cfg` exists.  Pure functions of `zap.py` become
Lean functions over this state; the commands (`cmd_create`, `cmd_delete`,
`cmd_activate`, `cmd_list`) become explicit state-passing functions whose
external collaborators (interpreter snapshot, default-version config file,
the delegated `venv` run, standard input) are passed in as arguments.
-/

/-- An entry inside a version directory `ROOT/<ver>/`: a filesystem object
named `name`; `isDir` records whether it is a directory and `hasMarker`
whether `<entry>/pyvenv.cfg` exists. -/
structure EnvEntry where
  name : String
  isDir : Bool
  hasMarker : Bool
deriving Repr, DecidableEq

/-- An entry of `ENV_ROOT`: a filesystem object with its child entries (in
directory iteration order; meaningful only when `isDir`). -/
structure RootEntry where
  name : String
  isDir : Bool
  envs : List EnvEntry
deriving Repr, DecidableEq

/-- The registry state: the entries of `ENV_ROOT` in iteration order. -/
abbrev Registry := List RootEntry

/-- The path `ROOT/<ver>/<name>` of an environment directory, represented by
its two components below the registry root. -/
structure EnvPath where
  ver : String
  name : String
deriving Repr, DecidableEq

/-- Physical well-formedness of an entry: a marker file can only live inside
a directory, so `hasMarker` forces `isDir`. -/
def EnvEntry.Wf (e : EnvEntry) : Prop := e.hasMarker = true → e.isDir = true

instance (e : EnvEntry) : Decidable e.Wf := by unfold EnvEntry.Wf; infer_instance

/-- Physical well-formedness of a version directory: filesystem names within
one directory are distinct and nonempty, and each child entry is well formed. -/
def RootEntry.Wf (d : RootEntry) : Prop :=
  (d.envs.map EnvEntry.name).Nodup ∧ ∀ e ∈ d.envs, e.name ≠ "" ∧ e.Wf

instance (d : RootEntry) : Decidable d.Wf := by unfold RootEntry.Wf; infer_instance

/-- Physical well-formedness of the registry: the names of the entries of
`ENV_ROOT` are distinct and nonempty and every entry is well formed. -/
def Registry.Wf (reg : Registry) : Prop :=
  (reg.map RootEntry.name).Nodup ∧ ∀ d ∈ reg, d.name ≠ "" ∧ d.Wf

instance (reg : Registry) : Decidable reg.Wf := by unfold Registry.Wf; infer_instance

/-- Look up the child entry named `n` of a version directory (the filesystem
resolution of `ROOT/<ver>/<n>`). -/
def findEntry (d : RootEntry) (n : String) : Option EnvEntry :=
  d.envs.find? (fun e => e.name == n)

/-- Look up the entry named `v` of `ENV_ROOT` (the filesystem resolution of
`ROOT/<v>`). -/
def findDir (reg : Registry) (v : String) : Option RootEntry :=
  reg.find? (fun d => d.name == v)

/-- Python truthiness of an optional string (`if version:`): `None` and the
empty string are falsy. -/
def truthy : Option String → Bool
  | some s => s != ""
  | none => false

/-- `envs_by_version` of `zap.py`: for every directory entry of `ENV_ROOT`, in
iteration order, the child entries that contain the marker file
(`[p for p in ver_dir.iterdir() if (p / "pyvenv.cfg").exists()]`). -/
def envs_by_version (reg : Registry) : List (String × List EnvEntry) :=
  reg.filterMap (fun d =>
    if d.isDir then some (d.name, d.envs.filter (fun e => e.hasMarker)) else none)

/-- The check applied by `find_envs_by_name` to one version directory:
`potential_env.exists() and (potential_env / "pyvenv.cfg").exists()`. -/
def isValidEnvIn (d : RootEntry) (name : String) : Bool :=
  match findEntry d name with
  | some e => e.hasMarker
  | none => false

/-- Loop of `find_envs_by_name`: iterate over the entries of `ENV_ROOT`,
skipping non-directories, appending `(ver_dir.name, ver_dir / name)` for each
match into the accumulator, and — when `find_all` is false — breaking as soon
as the accumulated list has reached two matches. -/
def findEnvsAux (name : String) (find_all : Bool) :
    List RootEntry → List (String × EnvPath) → List (String × EnvPath)
  | [], acc => acc
  | d :: rest, acc =>
    if d.isDir then
      if isValidEnvIn d name then
        let acc1 := acc ++ [(d.name, ⟨d.name, name⟩)]
        if !find_all && decide (2 ≤ acc1.length) then acc1
        else findEnvsAux name find_all rest acc1
      else findEnvsAux name find_all rest acc
    else findEnvsAux name find_all rest acc

/-- `find_envs_by_name` of `zap.py`: find environments by name across all
version directories; with `find_all = false` stop after two matches. -/
def find_envs_by_name (reg : Registry) (name : String) (find_all : Bool := true) :
    List (String × EnvPath) :=
  findEnvsAux name find_all reg []

/-- The branch of `env_path` taken when a version is given (and truthy):
resolve `ROOT/version/name` directly and require `env_dir.is_dir()` together
with the marker file. -/
def env_path_direct (reg : Registry) (name : String) (v : String) : Option EnvPath :=
  match findDir reg v with
  | some d =>
    if d.isDir then
      match findEntry d name with
      | some e => if e.isDir && e.hasMarker then some ⟨v, name⟩ else none
      | none => none
    else none
  | none => none

/-- The branch of `env_path` taken when no version is given: scan
`ENV_ROOT.glob("*/*")` in directory order and return the first second-level
directory named `name` that contains the marker file. -/
def env_path_scan (reg : Registry) (name : String) : Option EnvPath :=
  reg.findSome? (fun d =>
    if d.isDir then
      d.envs.findSome? (fun e =>
        if e.isDir && e.name == name && e.hasMarker then some (⟨d.name, e.name⟩ : EnvPath)
        else none)
    else none)

/-- `env_path` of `zap.py`.  Note the Python guard is `if version:`, so a
`None` version and an empty-string version both take the scanning branch. -/
def env_path (reg : Registry) (name : String) (version : Option String) : Option EnvPath :=
  match version with
  | some v => if v == "" then env_path_scan reg name else env_path_direct reg name v
  | none => env_path_scan reg name

/-- Resolver outcome (§4.2 of the specification). -/
inductive Outcome where
  | NotFound
  | SingleMatch (ver : String) (path : EnvPath)
  | MultipleMatches (found : List (String × EnvPath))
deriving Repr, DecidableEq

/-- The resolution performed by `cmd_delete` and `cmd_activate`, rendered as a
§4.2 outcome: with a truthy version tag, a direct `env_path` lookup; otherwise
a `find_envs_by_name` scan classified by its number of matches. -/
def resolve (reg : Registry) (name : String) (version : Option String) : Outcome :=
  if truthy version then
    match env_path reg name version with
    | some p => .SingleMatch (version.getD "") p
    | none => .NotFound
  else
    match find_envs_by_name reg name true with
    | [] => .NotFound
    | [m] => .SingleMatch m.1 m.2
    | ms => .MultipleMatches ms

/-- Parse the digits of a Python integer literal after its first digit:
`digit (["_"] digit)*` — single underscores are allowed only between digits. -/
def pyDigitsAux : List Char → Nat → Option Nat
  | [], acc => some acc
  | '_' :: c :: rest, acc =>
    if c.isDigit then pyDigitsAux rest (acc * 10 + (c.toNat - 48)) else none
  | ['_'], _ => none
  | c :: rest, acc =>
    if c.isDigit then pyDigitsAux rest (acc * 10 + (c.toNat - 48)) else none

/-- Parse a nonempty Python digit string (`digit (["_"] digit)*`). -/
def pyDigits? : List Char → Option Nat
  | [] => none
  | c :: rest => if c.isDigit then pyDigitsAux rest (c.toNat - 48) else none

/-- Python's `int(s)` on a string (ASCII model): strip surrounding whitespace,
allow one optional sign, then digits with single underscores between digits;
anything else raises `ValueError`, modelled as `none`. -/
def pyInt? (s : String) : Option Int :=
  let cs :=
    ((s.toList.dropWhile Char.isWhitespace).reverse.dropWhile Char.isWhitespace).reverse
  match cs with
  | '+' :: rest => (pyDigits? rest).map (fun n => (n : Int))
  | '-' :: rest => (pyDigits? rest).map (fun n => -(n : Int))
  | _ => (pyDigits? cs).map (fun n => (n : Int))

/-- Standard-input state of one invocation: whether `sys.stdin.isatty()`, the
line read by the disambiguation menu, and the line read by the deletion
confirmation prompt. -/
structure Stdin where
  isatty : Bool
  menuChoice : String
  confirmAnswer : String
deriving Repr, DecidableEq

/-- `select_environment` of `zap.py`: on an interactive terminal, read a menu
choice, parse it with `int`, and return the chosen entry when
`0 <= int(choice) - 1 < len(matching_envs)`; otherwise (parse failure,
out-of-range choice, or no interactive terminal) return `None`. -/
def select_environment (matching_envs : List (String × EnvPath))
    (stdin_isatty : Bool) (choice : String) : Option (String × EnvPath) :=
  if stdin_isatty then
    match pyInt? choice with
    | some i =>
      let choice_idx := i - 1
      if 0 ≤ choice_idx && choice_idx < (matching_envs.length : Int) then
        matching_envs[choice_idx.toNat]?
      else none
    | none => none
  else none

/-- `shutil.rmtree(ROOT/<p.ver>/<p.name>)`: remove that subtree from the
registry state. -/
def rmtreeEnv (reg : Registry) (p : EnvPath) : Registry :=
  reg.map (fun d =>
    if d.name == p.ver then
      { d with envs := d.envs.filter (fun e => e.name != p.name) }
    else d)

/-- Arguments of `zap delete`. -/
structure DeleteArgs where
  name : String
  version : Option String
  yes : Bool
deriving Repr, DecidableEq

/-- How `cmd_delete` terminates. -/
inductive DeleteResult where
  | exitNotFound
  | cancelledSelection
  | cancelledConfirm
  | deleted
deriving Repr, DecidableEq

/-- Process exit code of each `cmd_delete` ending: `sys.exit(message)` exits
with code 1; every other path returns normally, exit code 0. -/
def DeleteResult.exitCode : DeleteResult → Nat
  | .exitNotFound => 1
  | _ => 0

/-- Intermediate state of `cmd_delete` after its resolution phase. -/
inductive DeleteStep where
  | exitNotFound
  | cancelled
  | proceed (env_dir : EnvPath)
deriving Repr, DecidableEq

/-- Resolution phase of `cmd_delete`: with a truthy `--version`, a direct
`env_path` lookup; otherwise classify `find_envs_by_name` — no match exits
with an error, several matches go through `select_environment` (whose `None`
answer makes the command return), one match proceeds directly. -/
def deleteResolve (reg : Registry) (args : DeleteArgs) (stdin : Stdin) : DeleteStep :=
  if truthy args.version then
    match env_path reg args.name args.version with
    | some p => .proceed p
    | none => .exitNotFound
  else
    match find_envs_by_name reg args.name true with
    | [] => .exitNotFound
    | [m] => .proceed m.2
    | ms =>
      match select_environment ms stdin.isatty stdin.menuChoice with
      | some sel => .proceed sel.2
      | none => .cancelled

/-- Python's `str.lower()` (ASCII model): lower-case every character. -/
def pyLower (s : String) : String := String.mk (s.data.map Char.toLower)

/-- The confirmation test of `cmd_delete`: the prompt `Delete ...? [y/N]` is
answered affirmatively exactly when `input().lower() == "y"`. -/
def affirmative (answer : String) : Bool := pyLower answer == "y"

/-- `cmd_delete` of `zap.py`: resolve the environment, then — unless `-y` was
given — read a confirmation line from standard input (note: with no
interactivity check), and remove the directory tree on an affirmative answer. -/
def cmd_delete (reg : Registry) (args : DeleteArgs) (stdin : Stdin) :
    DeleteResult × Registry :=
  match deleteResolve reg args stdin with
  | .exitNotFound => (.exitNotFound, reg)
  | .cancelled => (.cancelledSelection, reg)
  | .proceed p =>
    if !args.yes && !(affirmative stdin.confirmAnswer) then (.cancelledConfirm, reg)
    else (.deleted, rmtreeEnv reg p)

/-- `activate_cmd` of `zap.py` (POSIX branch): the shell command string for a
resolved environment directory. -/
def activate_cmd (root : String) (p : EnvPath) : String :=
  "source " ++ root ++ "/" ++ p.ver ++ "/" ++ p.name ++ "/bin/activate"

/-- How `cmd_activate` terminates (it never mutates the registry). -/
inductive ActivateResult where
  | exitNotFound
  | cancelledSelection
  | activated (cmd : String)
deriving Repr, DecidableEq

/-- Process exit code of each `cmd_activate` ending. -/
def ActivateResult.exitCode : ActivateResult → Nat
  | .exitNotFound => 1
  | _ => 0

/-- `cmd_activate` of `zap.py`: the same resolution and disambiguation flow as
`cmd_delete`, ending in the printed activation command. -/
def cmd_activate (root : String) (reg : Registry) (name : String)
    (version : Option String) (stdin : Stdin) : ActivateResult :=
  if truthy version then
    match env_path reg name version with
    | some p => .activated (activate_cmd root p)
    | none => .exitNotFound
  else
    match find_envs_by_name reg name true with
    | [] => .exitNotFound
    | [m] => .activated (activate_cmd root m.2)
    | ms =>
      match select_environment ms stdin.isatty stdin.menuChoice with
      | some sel => .activated (activate_cmd root sel.2)
      | none => .cancelledSelection

/-- Arguments of `zap create`. -/
structure CreateArgs where
  version : Option String
  name : String
deriving Repr, DecidableEq

/-- Outcome of the delegated environment-creation run
(`run([python_exe, "-m", "venv", ...])`): its exit code and combined output,
and whether the directory it produced at the target path contains the marker
file. -/
structure VenvRun where
  rc : Int
  out : String
  builtMarker : Bool
deriving Repr, DecidableEq

/-- How `cmd_create` terminates.  `oserror` is the uncaught exception raised
by `mkdir(parents=True, exist_ok=True)` when `ROOT/<version>` exists as a
non-directory. -/
inductive CreateResult where
  | exitNoVersion
  | exitInterpreterNotFound (v : String)
  | exitAlreadyExists
  | exitCreationFailed (out : String)
  | oserror
  | success
deriving Repr, DecidableEq

/-- The version-defaulting prologue of `cmd_create`: an explicit argument wins;
otherwise the persisted default is consulted, and `if not version:` treats a
missing default and an empty-string default alike as "no version specified". -/
def resolveVersion (argVersion : Option String) (defaultVersion : Option String) :
    Option String :=
  match argVersion with
  | some v => some v
  | none =>
    match defaultVersion with
    | some d => if d == "" then none else some d
    | none => none

/-- The `env_dir.exists()` check of `cmd_create` for `ROOT/<v>/<name>`. -/
def pathExistsUnder (reg : Registry) (v : String) (name : String) : Bool :=
  match findDir reg v with
  | some d => d.isDir && (findEntry d name).isSome
  | none => false

/-- Whether `ROOT/<v>` exists as a non-directory, which makes
`mkdir(parents=True, exist_ok=True)` raise. -/
def parentBlocked (reg : Registry) (v : String) : Bool :=
  match findDir reg v with
  | some d => !d.isDir
  | none => false

/-- `env_dir.parent.mkdir(parents=True, exist_ok=True)`: create `ROOT/<v>` if
it is missing (new directory entries appear at the end of iteration order). -/
def mkdirParent (reg : Registry) (v : String) : Registry :=
  match findDir reg v with
  | some _ => reg
  | none => reg ++ [⟨v, true, []⟩]

/-- The filesystem effect of the delegated creation: a new entry appears under
`ROOT/<v>`. -/
def addEnv (reg : Registry) (v : String) (e : EnvEntry) : Registry :=
  reg.map (fun d => if d.name == v then { d with envs := d.envs ++ [e] } else d)

/-- `cmd_create` of `zap.py`: default the version, validate it against the
interpreter snapshot, refuse an existing target path, create the parent
directory, delegate creation, and on a non-zero exit code remove the
partially-created tree (`shutil.rmtree(env_dir, ignore_errors=True)`) before
exiting with the delegated run's output. -/
def cmd_create (reg : Registry) (pythons : List (String × String))
    (defaultVersion : Option String) (args : CreateArgs) (venv : VenvRun) :
    CreateResult × Registry :=
  match resolveVersion args.version defaultVersion with
  | none => (.exitNoVersion, reg)
  | some version =>
    if (pythons.lookup version).isNone then (.exitInterpreterNotFound version, reg)
    else if pathExistsUnder reg version args.name then (.exitAlreadyExists, reg)
    else if parentBlocked reg version then (.oserror, reg)
    else
      let reg1 := addEnv (mkdirParent reg version) version ⟨args.name, true, venv.builtMarker⟩
      if venv.rc != 0 then (.exitCreationFailed venv.out, rmtreeEnv reg1 ⟨version, args.name⟩)
      else (.success, reg1)

/-- One segment of `version_key`: `int(part)` where parse failure stands for
`float("inf")`, which sorts after every integer. -/
def segOf (part : String) : Option Int := pyInt? part

/-- `re.split` over the characters of a tag: the (possibly empty) runs of
characters between occurrences of separator characters. -/
def splitSegs (p : Char → Bool) : List Char → List (List Char)
  | [] => [[]]
  | c :: rest =>
    if p c then [] :: splitSegs p rest
    else
      match splitSegs p rest with
      | s :: ss => (c :: s) :: ss
      | [] => [[c]]

/-- `version_key` of `cmd_list`: split the tag on `.` and `-` and key each
segment by `int` value, with non-numeric segments keyed as `float("inf")`
(modelled as `none`). -/
def version_key (v : String) : List (Option Int) :=
  (splitSegs (fun c => c == '.' || c == '-') v.data).map
    (fun seg => segOf (String.mk seg))

/-- Python's `<` on key segments: two integers compare as integers, an integer
is below `float("inf")`, and `float("inf")` is below nothing. -/
def segLt : Option Int → Option Int → Bool
  | some a, some b => a < b
  | some _, none => true
  | none, _ => false

/-- Python's `<` on key tuples: lexicographic, with a strict prefix below any
extension. -/
def keyLt : List (Option Int) → List (Option Int) → Bool
  | [], [] => false
  | [], _ :: _ => true
  | _ :: _, [] => false
  | a :: as, b :: bs => segLt a b || (a == b && keyLt as bs)

/-- The strict "sorts before" order on version tags used by `cmd_list`. -/
def versionLt (a b : String) : Bool := keyLt (version_key a) (version_key b)

/-- The non-strict order induced by `versionLt`, as used by a stable sort:
`a` may stay before `b` exactly when `b` is not strictly below `a`. -/
def versionLE (a b : String) : Bool := !(versionLt b a)

/-- The order in which `cmd_list` prints version-tag sections:
`sorted(envs.keys(), key=version_key)`. -/
def sortedVersionTags (reg : Registry) : List String :=
  ((envs_by_version reg).map Prod.fst).mergeSort versionLE

/-- The environment sections printed by `cmd_list`: every version tag in
sorted order whose valid-environment list is nonempty, with the environment
names sorted lexicographically. -/
def cmd_list_sections (reg : Registry) : List (String × List String) :=
  (sortedVersionTags reg).filterMap (fun v =>
    let env_list := ((envs_by_version reg).lookup v).getD []
    if env_list.isEmpty then none
    else some (v, (env_list.map EnvEntry.name).mergeSort (fun a b => a ≤ b)))

/-- The §4.1 environment-existence check (`environmentExists`): the directory
`ROOT/<v>/<name>` exists as a directory and contains the marker file, as coded
in the explicit-version branch of `env_path`. -/
def environmentExists (reg : Registry) (v : String) (name : String) : Bool :=
  match findDir reg v with
  | some d =>
    d.isDir &&
      (match findEntry d name with
       | some e => e.isDir && e.hasMarker
       | none => false)
  | none => false

/-- The matches collected by a full `find_envs_by_name` scan, written as one
pass over the version directories (used to characterize `findEnvsAux`). -/
def scanMatches (name : String) (ds : List RootEntry) : List (String × EnvPath) :=
  ds.filterMap (fun d =>
    if d.isDir && isValidEnvIn d name then some (d.name, ⟨d.name, name⟩) else none)

/-- Example registry: the name `web` exists as a valid environment under the
two tags `3.10` and `3.11`; `3.10` also holds a directory `junk` without the
marker file; a stray file sits directly under the root. -/
def regTwo : Registry :=
  [⟨"3.10", true, [⟨"web", true, true⟩, ⟨"junk", true, false⟩]⟩,
   ⟨"3.11", true, [⟨"web", true, true⟩]⟩,
   ⟨"readme.txt", false, []⟩]

/-- Example registry: a single valid environment `alpha` under `3.11`. -/
def regOne : Registry := [⟨"3.11", true, [⟨"alpha", true, true⟩]⟩]

/-- With `find_all = true` the loop of `find_envs_by_name` never breaks: it
appends every match of the scan to the accumulator. -/
theorem findEnvsAux_true_eq (name : String) (ds : List RootEntry) :
    ∀ acc, findEnvsAux name true ds acc = acc ++ scanMatches name ds := by
  induction ds with
  | nil => intro acc; simp [findEnvsAux, scanMatches]
  | cons d rest ih =>
    intro acc
    by_cases hd : d.isDir
    · by_cases hv : isValidEnvIn d name
      · simp [findEnvsAux, hd, hv, scanMatches, ih]
      · simp [findEnvsAux, hd, hv, scanMatches, ih]
    · simp [findEnvsAux, hd, scanMatches, ih]

/-- With `find_all = false` and at most one match accumulated so far, the loop
of `find_envs_by_name` collects matches until the accumulator holds two. -/
theorem findEnvsAux_false_eq (name : String) (ds : List RootEntry) :
    ∀ acc, acc.length ≤ 1 →
      findEnvsAux name false ds acc = acc ++ (scanMatches name ds).take (2 - acc.length) := by
  induction ds with
  | nil => intro acc _; simp [findEnvsAux, scanMatches]
  | cons d rest ih =>
    intro acc hacc
    by_cases hd : d.isDir
    · by_cases hv : isValidEnvIn d name
      · have hscan : scanMatches name (d :: rest)
            = (d.name, (⟨d.name, name⟩ : EnvPath)) :: scanMatches name rest := by
          simp [scanMatches, hd, hv]
        rcases Nat.lt_or_ge acc.length 1 with h0 | h1
        · have h0 : acc.length = 0 := Nat.lt_one_iff.mp h0
          have hnil : acc = [] := List.length_eq_zero.mp h0
          subst hnil
          have hlen : ¬ (2 ≤ ([] ++ [(d.name, (⟨d.name, name⟩ : EnvPath))]).length) := by simp
          simp only [findEnvsAux, hd, hv, if_pos, Bool.not_false, Bool.true_and]
          rw [if_neg (by simp)]
          rw [ih _ (by simp)]
          simp [hscan]
        · have h1 : acc.length = 1 := Nat.le_antisymm hacc h1
          have hlen : 2 ≤ (acc ++ [(d.name, (⟨d.name, name⟩ : EnvPath))]).length := by
            simp [h1]
          simp only [findEnvsAux, hd, hv, if_pos, Bool.not_false, Bool.true_and]
          rw [if_pos (by simpa using hlen)]
          simp [hscan, h1]
      · have hscan : scanMatches name (d :: rest) = scanMatches name rest := by
          simp [scanMatches, hd, hv]
        simp only [findEnvsAux, hd, hv, if_pos, if_neg, Bool.false_eq_true, not_false_iff]
        rw [ih _ hacc, hscan]
    · have hscan : scanMatches name (d :: rest) = scanMatches name rest := by
        simp [scanMatches, hd]
      simp only [findEnvsAux, if_neg hd]
      rw [ih _ hacc, hscan]

/-- A full `find_envs_by_name` scan returns exactly the matches of the
one-pass characterization. -/
theorem find_envs_by_name_true_eq (reg : Registry) (name : String) :
    find_envs_by_name reg name true = scanMatches name reg := by
  simp [find_envs_by_name, findEnvsAux_true_eq]

/-- The early-stopping `find_envs_by_name` variant returns exactly the first
two matches of the full scan. -/
theorem find_envs_by_name_false_eq (reg : Registry) (name : String) :
    find_envs_by_name reg name false = (find_envs_by_name reg name true).take 2 := by
  rw [find_envs_by_name_true_eq]
  simp [find_envs_by_name, findEnvsAux_false_eq name reg [] (by simp)]

/-- C10: the early-stopping variant of name resolution (`find_envs_by_name`
with `find_all=False`, which stops scanning after two matches) agrees with the
full scan on the outcome class: empty for the same registry states, the same
unique (version tag, path) pair when exactly one match exists, and two or more
matches exactly when the full scan finds two or more. -/
theorem find_all_refinement (reg : Registry) (name : String) :
    (find_envs_by_name reg name false = [] ↔ find_envs_by_name reg name true = []) ∧
    (∀ m, find_envs_by_name reg name false = [m] ↔ find_envs_by_name reg name true = [m]) ∧
    (2 ≤ (find_envs_by_name reg name false).length ↔
      2 ≤ (find_envs_by_name reg name true).length) := by
  rw [find_envs_by_name_false_eq]
  generalize find_envs_by_name reg name true = l
  rcases l with _ | ⟨a, _ | ⟨b, rest⟩⟩ <;> simp

/-- Concrete instance of `find_all_refinement` on `regTwo`, where the full
scan finds the two `web` environments. -/
theorem find_all_refinement_witness :
    (find_envs_by_name regTwo "web" false = [] ↔ find_envs_by_name regTwo "web" true = []) ∧
    (find_envs_by_name regTwo "web" false = [("3.10", ⟨"3.10", "web"⟩)] ↔
      find_envs_by_name regTwo "web" true = [("3.10", ⟨"3.10", "web"⟩)]) ∧
    (2 ≤ (find_envs_by_name regTwo "web" false).length ↔
      2 ≤ (find_envs_by_name regTwo "web" true).length) :=
  ⟨(find_all_refinement regTwo "web").1,
   (find_all_refinement regTwo "web").2.1 ("3.10", ⟨"3.10", "web"⟩),
   (find_all_refinement regTwo "web").2.2⟩

/-- A successful name-keyed `find?` returns a member bearing that name. -/
theorem find?_name_mem {α : Type} (f : α → String) {l : List α} {v : String} {x : α}
    (h : l.find? (fun y => f y == v) = some x) : x ∈ l ∧ f x = v := by
  refine ⟨List.mem_of_find?_eq_some h, ?_⟩
  have := List.find?_some h
  simpa using this

/-- When the names of a list's members are distinct, a name-keyed `find?`
returns precisely the member bearing the sought name. -/
theorem find?_name_eq_of_mem {α : Type} (f : α → String) {l : List α}
    (hn : (l.map f).Nodup) {x : α} (hx : x ∈ l) {v : String} (hv : f x = v) :
    l.find? (fun y => f y == v) = some x := by
  induction l with
  | nil => simp at hx
  | cons a rest ih =>
    simp only [List.map_cons, List.nodup_cons] at hn
    rcases List.mem_cons.mp hx with rfl | hmem
    · exact List.find?_cons_of_pos rest (by simp [hv])
    · have hne : ¬ (f a == v) = true := by
        simp only [beq_iff_eq]
        intro he
        exact hn.1 (he ▸ hv ▸ List.mem_map_of_mem f hmem)
      exact (List.find?_cons_of_neg rest hne).trans (ih hn.2 hmem)

/-- The one-pass scan characterization, as a map over the version directories
that pass the validity check. -/
theorem scanMatches_eq_map_filter (name : String) (ds : List RootEntry) :
    scanMatches name ds
      = (ds.filter (fun d => d.isDir && isValidEnvIn d name)).map
          (fun d => (d.name, (⟨d.name, name⟩ : EnvPath))) := by
  induction ds with
  | nil => rfl
  | cons d rest ih =>
    unfold scanMatches at ih ⊢
    by_cases h1 : d.isDir = true
    · by_cases h2 : isValidEnvIn d name = true
      · simpa [List.filterMap_cons, List.filter_cons, h1, h2] using ih
      · simpa [List.filterMap_cons, List.filter_cons, h1, h2] using ih
    · simpa [List.filterMap_cons, List.filter_cons, h1] using ih

/-- A directory that passes the `find_envs_by_name` validity check and is
physically well formed resolves through the explicit-version branch of
`env_path`. -/
theorem env_path_direct_of_valid {reg : Registry} {d : RootEntry} {name v : String}
    (hfind : findDir reg v = some d) (hdir : d.isDir = true)
    (he : isValidEnvIn d name = true) (hwfd : d.Wf) :
    env_path_direct reg name v = some ⟨v, name⟩ := by
  unfold env_path_direct
  rw [hfind]
  simp only [hdir, if_true]
  unfold isValidEnvIn at he
  cases hfe : findEntry d name with
  | none => rw [hfe] at he; simp at he
  | some e =>
    rw [hfe] at he
    have hm : e.hasMarker = true := he
    have hmem := (find?_name_mem EnvEntry.name hfe).1
    have hisdir : e.isDir = true := (hwfd.2 e hmem).2 hm
    simp [hisdir, hm]

/-- With a truthy explicit version tag, `resolve` reports a `SingleMatch` for
any directory passing the validity check. -/
theorem resolve_some_of_valid {reg : Registry} {d : RootEntry} {name v : String}
    (hv : v ≠ "") (hfind : findDir reg v = some d) (hdir : d.isDir = true)
    (he : isValidEnvIn d name = true) (hwfd : d.Wf) :
    resolve reg name (some v) = .SingleMatch v ⟨v, name⟩ := by
  have hpath := env_path_direct_of_valid hfind hdir he hwfd
  simp [resolve, truthy, hv, env_path, hpath]

/-- C1: when a name exists as a valid environment (directory with marker file)
under exactly the two distinct version tags `v1` and `v2` — stated as: the
version directories passing the validity check for `name` are exactly `[v1,
v2]` in iteration order — resolving without a version tag yields
`MultipleMatches` with exactly those two (tag, path) pairs in iteration order;
resolving with either tag yields a `SingleMatch` for that one environment; and
the explicit-tag lookups depend only on the looked-up tag's own directory,
never consulting the other version tag (they give the same answer in any
registry whose entry for that tag is unchanged). -/
theorem resolve_two_tags (reg : Registry) (name v1 v2 : String) (hwf : reg.Wf)
    (hfilter : (reg.filter (fun d => d.isDir && isValidEnvIn d name)).map RootEntry.name
        = [v1, v2]) :
    resolve reg name none = .MultipleMatches [(v1, ⟨v1, name⟩), (v2, ⟨v2, name⟩)] ∧
    resolve reg name (some v1) = .SingleMatch v1 ⟨v1, name⟩ ∧
    resolve reg name (some v2) = .SingleMatch v2 ⟨v2, name⟩ ∧
    (∀ reg2 : Registry, findDir reg2 v1 = findDir reg v1 →
      resolve reg2 name (some v1) = .SingleMatch v1 ⟨v1, name⟩) ∧
    (∀ reg2 : Registry, findDir reg2 v2 = findDir reg v2 →
      resolve reg2 name (some v2) = .SingleMatch v2 ⟨v2, name⟩) := by
  obtain ⟨d1, d2, hfl, h1, h2⟩ :
      ∃ d1 d2, reg.filter (fun d => d.isDir && isValidEnvIn d name) = [d1, d2]
        ∧ d1.name = v1 ∧ d2.name = v2 := by
    rcases hl : reg.filter (fun d => d.isDir && isValidEnvIn d name)
      with _ | ⟨d1, _ | ⟨d2, rest⟩⟩
    · rw [hl] at hfilter; simp at hfilter
    · rw [hl] at hfilter; simp at hfilter
    · rw [hl] at hfilter
      simp only [List.map_cons, List.cons.injEq, List.map_eq_nil_iff] at hfilter
      obtain ⟨e1, e2, e3⟩ := hfilter
      subst e3
      exact ⟨d1, d2, hl, e1, e2⟩
  have hmem1 : d1 ∈ reg.filter (fun d => d.isDir && isValidEnvIn d name) := by
    rw [hfl]; simp
  have hmem2 : d2 ∈ reg.filter (fun d => d.isDir && isValidEnvIn d name) := by
    rw [hfl]; simp
  have hd1reg : d1 ∈ reg := List.mem_of_mem_filter hmem1
  have hd2reg : d2 ∈ reg := List.mem_of_mem_filter hmem2
  have hcond1 := List.of_mem_filter hmem1
  have hcond2 := List.of_mem_filter hmem2
  rw [Bool.and_eq_true] at hcond1 hcond2
  have hv1ne : v1 ≠ "" := h1 ▸ (hwf.2 d1 hd1reg).1
  have hv2ne : v2 ≠ "" := h2 ▸ (hwf.2 d2 hd2reg).1
  have hfind1 : findDir reg v1 = some d1 := find?_name_eq_of_mem RootEntry.name hwf.1 hd1reg h1
  have hfind2 : findDir reg v2 = some d2 := find?_name_eq_of_mem RootEntry.name hwf.1 hd2reg h2
  have hwfd1 := ((hwf.2 d1 hd1reg).2 : d1.Wf)
  have hwfd2 := ((hwf.2 d2 hd2reg).2 : d2.Wf)
  have hfindall : find_envs_by_name reg name true
      = [(v1, ⟨v1, name⟩), (v2, ⟨v2, name⟩)] := by
    rw [find_envs_by_name_true_eq, scanMatches_eq_map_filter, hfl]
    simp [h1, h2]
  refine ⟨?_,
    resolve_some_of_valid hv1ne hfind1 hcond1.1 hcond1.2 hwfd1,
    resolve_some_of_valid hv2ne hfind2 hcond2.1 hcond2.2 hwfd2,
    fun reg2 hsame =>
      resolve_some_of_valid hv1ne (hsame.trans hfind1) hcond1.1 hcond1.2 hwfd1,
    fun reg2 hsame =>
      resolve_some_of_valid hv2ne (hsame.trans hfind2) hcond2.1 hcond2.2 hwfd2⟩
  simp [resolve, truthy, hfindall]

/-- Concrete instance of `resolve_two_tags` on `regTwo`, whose name `web` is a
valid environment under exactly the tags `3.10` and `3.11`; the frame claims
are instanced at a registry extended with an unrelated tag. -/
theorem resolve_two_tags_witness :
    resolve regTwo "web" none
      = .MultipleMatches [("3.10", ⟨"3.10", "web"⟩), ("3.11", ⟨"3.11", "web"⟩)] ∧
    resolve regTwo "web" (some "3.10") = .SingleMatch "3.10" ⟨"3.10", "web"⟩ ∧
    resolve regTwo "web" (some "3.11") = .SingleMatch "3.11" ⟨"3.11", "web"⟩ ∧
    resolve (regTwo ++ [⟨"3.12", true, []⟩]) "web" (some "3.10")
      = .SingleMatch "3.10" ⟨"3.10", "web"⟩ := by
  have h := resolve_two_tags regTwo "web" "3.10" "3.11" (by decide) (by decide)
  exact ⟨h.1, h.2.1, h.2.2.1, h.2.2.2.1 (regTwo ++ [⟨"3.12", true, []⟩]) (by decide)⟩

/-- `find?` only looks at predicate values, so pointwise-equal predicates
find the same element. -/
theorem find?_pred_congr {α : Type} {p q : α → Bool} (h : ∀ x, p x = q x) :
    ∀ l : List α, l.find? p = l.find? q := by
  intro l
  induction l with
  | nil => rfl
  | cons a rest ih => simp only [List.find?_cons, h a, ih]

/-- Removing an environment tree rewrites only the `envs` field of directories
named after its tag, so root-level lookup commutes with the removal. -/
theorem findDir_rmtreeEnv (reg : Registry) (p : EnvPath) (v : String) :
    findDir (rmtreeEnv reg p) v
      = (findDir reg v).map (fun d =>
          if d.name == p.ver then
            { d with envs := d.envs.filter (fun e => e.name != p.name) }
          else d) := by
  unfold rmtreeEnv findDir
  rw [List.find?_map]
  exact congrArg (Option.map _)
    (find?_pred_congr (fun d => by
      by_cases h : (d.name == p.ver) = true <;> simp [Function.comp, h]) reg)

/-- After filtering out the entries named `n`, no entry named `n` is found. -/
theorem findEntry_filter_ne (envs : List EnvEntry) (n : String) :
    (envs.filter (fun e => e.name != n)).find? (fun e => e.name == n) = none := by
  rw [List.find?_eq_none]
  intro e he
  have := List.of_mem_filter he
  simpa using this

/-- After `shutil.rmtree(ROOT/<p.ver>/<p.name>)` nothing exists at that path. -/
theorem pathExistsUnder_rmtreeEnv (reg : Registry) (p : EnvPath) :
    pathExistsUnder (rmtreeEnv reg p) p.ver p.name = false := by
  unfold pathExistsUnder
  rw [findDir_rmtreeEnv]
  cases hf : findDir reg p.ver with
  | none => simp
  | some d =>
    have hname : d.name = p.ver := (find?_name_mem RootEntry.name hf).2
    simp only [Option.map_some']
    rw [if_pos (by simp [hname])]
    have hnone : findEntry
        { d with envs := d.envs.filter (fun e => e.name != p.name) } p.name = none := by
      unfold findEntry
      exact findEntry_filter_ne d.envs p.name
    simp [hnone]

/-- C2 counterexample: answering the deletion prompt with the literal
affirmative word "yes" does not delete.  On `regOne` (one environment `alpha`
under `3.11`), a delete invocation that reaches the confirmation prompt and is
answered "yes" returns with the registry untouched: the environment and its
marker file still exist, where the claim requires the directory tree to be
removed. -/
theorem delete_confirmation_counterexample :
    deleteResolve regOne ⟨"alpha", none, false⟩ ⟨true, "", "yes"⟩
      = .proceed ⟨"3.11", "alpha"⟩ ∧
    cmd_delete regOne ⟨"alpha", none, false⟩ ⟨true, "", "yes"⟩
      = (.cancelledConfirm, regOne) ∧
    environmentExists regOne "3.11" "alpha" = true := by decide

/-- C2 (amended): for every delete invocation that reaches the confirmation
prompt (skip-confirmation flag not set, single environment resolved), any
answer whose lowercase form is not exactly "y" — including the full word
"yes" — aborts cleanly with exit code 0 and leaves the registry, in particular
the environment directory and its marker file, untouched; an answer whose
lowercase form is exactly "y" causes the entire environment directory tree to
be removed. -/
theorem delete_confirmation (reg : Registry) (args : DeleteArgs) (stdin : Stdin)
    (p : EnvPath) (hres : deleteResolve reg args stdin = .proceed p)
    (hyes : args.yes = false) :
    (affirmative stdin.confirmAnswer = false →
      cmd_delete reg args stdin = (.cancelledConfirm, reg) ∧
      (cmd_delete reg args stdin).1.exitCode = 0) ∧
    (affirmative stdin.confirmAnswer = true →
      cmd_delete reg args stdin = (.deleted, rmtreeEnv reg p) ∧
      (cmd_delete reg args stdin).1.exitCode = 0 ∧
      pathExistsUnder (rmtreeEnv reg p) p.ver p.name = false) := by
  constructor
  · intro ha
    have : cmd_delete reg args stdin = (.cancelledConfirm, reg) := by
      simp [cmd_delete, hres, hyes, ha]
    exact ⟨this, by simp [this, DeleteResult.exitCode]⟩
  · intro ha
    have : cmd_delete reg args stdin = (.deleted, rmtreeEnv reg p) := by
      simp [cmd_delete, hres, hyes, ha]
    exact ⟨this, by simp [this, DeleteResult.exitCode], pathExistsUnder_rmtreeEnv reg p⟩

/-- Concrete instance of `delete_confirmation` on `regOne`: the answer "n"
cancels and preserves the registry, the answer "Y" deletes, and afterwards
nothing exists at the removed path. -/
theorem delete_confirmation_witness :
    cmd_delete regOne ⟨"alpha", none, false⟩ ⟨true, "", "n"⟩ = (.cancelledConfirm, regOne) ∧
    cmd_delete regOne ⟨"alpha", none, false⟩ ⟨true, "", "Y"⟩
      = (.deleted, rmtreeEnv regOne ⟨"3.11", "alpha"⟩) ∧
    pathExistsUnder (rmtreeEnv regOne ⟨"3.11", "alpha"⟩) "3.11" "alpha" = false :=
  ⟨((delete_confirmation regOne ⟨"alpha", none, false⟩ ⟨true, "", "n"⟩ ⟨"3.11", "alpha"⟩
      (by decide) rfl).1 (by decide)).1,
   ((delete_confirmation regOne ⟨"alpha", none, false⟩ ⟨true, "", "Y"⟩ ⟨"3.11", "alpha"⟩
      (by decide) rfl).2 (by decide)).1,
   ((delete_confirmation regOne ⟨"alpha", none, false⟩ ⟨true, "", "Y"⟩ ⟨"3.11", "alpha"⟩
      (by decide) rfl).2 (by decide)).2.2⟩

/-- C9 counterexample: the deletion confirmation prompt performs no
interactivity check.  On `regOne`, with standard input not attached to a
terminal, a delete invocation reaching the confirmation prompt consults the
confirmation line rather than substituting the non-interactive
abort-with-guidance fallback: the outcome depends on what is read ("y"
deletes, "n" returns), so the operation reads — and on an open empty pipe
would wait for — standard input. -/
theorem nonblocking_prompts_counterexample :
    (Stdin.mk false "" "y").isatty = false ∧
    cmd_delete regOne ⟨"alpha", none, false⟩ ⟨false, "", "y"⟩
      = (.deleted, [⟨"3.11", true, []⟩]) ∧
    cmd_delete regOne ⟨"alpha", none, false⟩ ⟨false, "", "n"⟩
      = (.cancelledConfirm, regOne) ∧
    cmd_delete regOne ⟨"alpha", none, false⟩ ⟨false, "", "y"⟩
      ≠ cmd_delete regOne ⟨"alpha", none, false⟩ ⟨false, "", "n"⟩ := by decide

/-- C9 (amended): the disambiguation menu detects non-interactivity — when
standard input is not a terminal, `select_environment` returns `None` without
consulting the menu line, whatever its contents.  The deletion confirmation
prompt has no such check: whenever the skip-confirmation flag is unset and an
environment is resolved, `cmd_delete` reads the confirmation line
unconditionally, and its outcome is determined by that line regardless of
terminal attachment. -/
theorem nonblocking_prompts (ms : List (String × EnvPath)) (choice : String)
    (reg : Registry) (args : DeleteArgs) (stdin : Stdin) (p : EnvPath)
    (hres : deleteResolve reg args stdin = .proceed p) (hyes : args.yes = false) :
    select_environment ms false choice = none ∧
    cmd_delete reg args stdin
      = (if affirmative stdin.confirmAnswer then (.deleted, rmtreeEnv reg p)
         else (.cancelledConfirm, reg)) := by
  constructor
  · simp [select_environment]
  · cases ha : affirmative stdin.confirmAnswer <;> simp [cmd_delete, hres, hyes, ha]

/-- Concrete instance of `nonblocking_prompts`: a two-way menu without a
terminal ignores the choice line, and a non-interactive delete of `alpha`
reads the confirmation line "y". -/
theorem nonblocking_prompts_witness :
    select_environment [("3.10", ⟨"3.10", "web"⟩), ("3.11", ⟨"3.11", "web"⟩)]
      false "1" = none ∧
    cmd_delete regOne ⟨"alpha", none, false⟩ ⟨false, "", "y"⟩
      = (if affirmative "y" then (.deleted, rmtreeEnv regOne ⟨"3.11", "alpha"⟩)
         else (.cancelledConfirm, regOne)) :=
  ⟨(nonblocking_prompts [("3.10", ⟨"3.10", "web"⟩), ("3.11", ⟨"3.11", "web"⟩)] "1"
      regOne ⟨"alpha", none, false⟩ ⟨false, "", "y"⟩ ⟨"3.11", "alpha"⟩
      (by decide) rfl).1,
   (nonblocking_prompts [("3.10", ⟨"3.10", "web"⟩), ("3.11", ⟨"3.11", "web"⟩)] "1"
      regOne ⟨"alpha", none, false⟩ ⟨false, "", "y"⟩ ⟨"3.11", "alpha"⟩
      (by decide) rfl).2⟩

/-- C8: when a delete or activate invocation without an explicit version tag
resolves to two or more matches, then in the unattended case (standard input
not a terminal), and likewise in the attended case on an invalid or
unparsable menu selection, both commands abort with exit code 0, deleting
nothing (delete leaves the registry unchanged; activate never mutates it),
and neither raises a failure. -/
theorem ambiguous_selection_aborts (root : String) (reg : Registry)
    (args : DeleteArgs) (stdin : Stdin) (ms : List (String × EnvPath))
    (hver : truthy args.version = false)
    (hms : find_envs_by_name reg args.name true = ms)
    (hlen : 2 ≤ ms.length)
    (hsel : stdin.isatty = false ∨
      pyInt? stdin.menuChoice = none ∨
      (∀ i, pyInt? stdin.menuChoice = some i → i < 1 ∨ (ms.length : Int) < i)) :
    cmd_delete reg args stdin = (.cancelledSelection, reg) ∧
    (cmd_delete reg args stdin).1.exitCode = 0 ∧
    cmd_activate root reg args.name args.version stdin = .cancelledSelection ∧
    (cmd_activate root reg args.name args.version stdin).exitCode = 0 := by
  obtain ⟨a, b, tl, rfl⟩ : ∃ a b tl, ms = a :: b :: tl := by
    rcases ms with _ | ⟨a, _ | ⟨b, tl⟩⟩
    · simp at hlen
    · simp at hlen
    · exact ⟨a, b, tl, rfl⟩
  have hnone : select_environment (a :: b :: tl) stdin.isatty stdin.menuChoice = none := by
    rcases hsel with h | h | h
    · simp [select_environment, h]
    · cases hi : stdin.isatty <;> simp [select_environment, h]
    · cases hi : stdin.isatty
      · simp [select_environment]
      · cases hp : pyInt? stdin.menuChoice with
        | none => simp [select_environment, hp]
        | some i =>
          have hcond : ¬ (0 ≤ i - 1 ∧ i - 1 < ((a :: b :: tl).length : Int)) := by
            rcases h i hp with hlt | hlt <;>
              simp only [List.length_cons] at hlt ⊢ <;> omega
          simp [select_environment, hp, hcond]
          simp only [List.length_cons] at hcond
          omega
  have hstep : deleteResolve reg args stdin = .cancelled := by
    simp [deleteResolve, hver, hms, hnone]
  have hact : cmd_activate root reg args.name args.version stdin = .cancelledSelection := by
    simp [cmd_activate, hver, hms, hnone]
  have hdel : cmd_delete reg args stdin = (.cancelledSelection, reg) := by
    simp [cmd_delete, hstep]
  exact ⟨hdel, by simp [hdel, DeleteResult.exitCode],
    hact, by simp [hact, ActivateResult.exitCode]⟩

/-- Concrete instance of `ambiguous_selection_aborts` on `regTwo`: the name
`web` matches twice; without a terminal both delete and activate abort
cleanly. -/
theorem ambiguous_selection_aborts_witness :
    cmd_delete regTwo ⟨"web", none, false⟩ ⟨false, "", "y"⟩
      = (.cancelledSelection, regTwo) ∧
    cmd_activate "/root/venvs" regTwo "web" none ⟨false, "", "y"⟩
      = .cancelledSelection := by
  have h := ambiguous_selection_aborts "/root/venvs" regTwo ⟨"web", none, false⟩
    ⟨false, "", "y"⟩ [("3.10", ⟨"3.10", "web"⟩), ("3.11", ⟨"3.11", "web"⟩)]
    (by decide) (by decide) (by decide) (Or.inl (by decide))
  exact ⟨h.1, h.2.2.1⟩

/-- C5: a create invocation whose requested version tag (explicit or taken
from the persisted default) is absent from the interpreter snapshot fails
with `InterpreterNotFound`, and the registry state is identical before and
after the failed call — no directory is created or modified. -/
theorem create_interpreter_not_found (reg : Registry) (pythons : List (String × String))
    (defaultVersion : Option String) (args : CreateArgs) (venv : VenvRun) (v : String)
    (hv : resolveVersion args.version defaultVersion = some v)
    (habsent : pythons.lookup v = none) :
    cmd_create reg pythons defaultVersion args venv = (.exitInterpreterNotFound v, reg) := by
  simp [cmd_create, hv, habsent]

/-- Concrete instance of `create_interpreter_not_found`: creating with an
unknown tag (here taken from the persisted default) changes nothing. -/
theorem create_interpreter_not_found_witness :
    cmd_create regOne [("3.11", "/usr/bin/python3.11")] (some "0.0-nope")
      ⟨none, "env1"⟩ ⟨0, "", true⟩
      = (.exitInterpreterNotFound "0.0-nope", regOne) :=
  create_interpreter_not_found regOne [("3.11", "/usr/bin/python3.11")] (some "0.0-nope")
    ⟨none, "env1"⟩ ⟨0, "", true⟩ "0.0-nope" (by decide) (by decide)

/-- C6: a create invocation whose target path `ROOT/<version>/<name>` already
exists as a directory — with or without the marker file (the entry `e` is
arbitrary apart from being a directory) — fails with `AlreadyExists` and
leaves the registry, in particular the pre-existing directory and its
contents, untouched. -/
theorem create_already_exists (reg : Registry) (pythons : List (String × String))
    (defaultVersion : Option String) (args : CreateArgs) (venv : VenvRun)
    (v : String) (d : RootEntry) (e : EnvEntry)
    (hv : resolveVersion args.version defaultVersion = some v)
    (hpy : pythons.lookup v ≠ none)
    (hfind : findDir reg v = some d) (hdir : d.isDir = true)
    (hentry : findEntry d args.name = some e) (_hedir : e.isDir = true) :
    cmd_create reg pythons defaultVersion args venv = (.exitAlreadyExists, reg) := by
  have hex : pathExistsUnder reg v args.name = true := by
    simp [pathExistsUnder, hfind, hdir, hentry]
  simp [cmd_create, hv, Option.isNone_iff_eq_none, hpy, hex]

/-- Concrete instance of `create_already_exists`: re-creating `alpha` under
`3.11` (whose directory already exists, marker included) fails and preserves
the registry. -/
theorem create_already_exists_witness :
    cmd_create regOne [("3.11", "/usr/bin/python3.11")] none
      ⟨some "3.11", "alpha"⟩ ⟨0, "", true⟩ = (.exitAlreadyExists, regOne) :=
  create_already_exists regOne [("3.11", "/usr/bin/python3.11")] none
    ⟨some "3.11", "alpha"⟩ ⟨0, "", true⟩ "3.11"
    ⟨"3.11", true, [⟨"alpha", true, true⟩]⟩ ⟨"alpha", true, true⟩
    (by decide) (by decide) (by decide) (by decide) (by decide) (by decide)

/-- Undoing the delegated creation: when nothing existed at the target path,
removing `ROOT/<v>/<nm>` after appending the built entry restores exactly the
state left by `mkdir(parents=True)`. -/
theorem create_cleanup_eq (reg : Registry) (v nm : String) (b : EnvEntry)
    (hb : b.name = nm) (hnodup : (reg.map RootEntry.name).Nodup)
    (hnotex : pathExistsUnder reg v nm = false)
    (hparent : parentBlocked reg v = false) :
    rmtreeEnv (addEnv (mkdirParent reg v) v b) ⟨v, nm⟩ = mkdirParent reg v := by
  unfold rmtreeEnv addEnv
  rw [List.map_map]
  have key : ∀ x ∈ mkdirParent reg v,
      ((fun d : RootEntry =>
          if d.name == (⟨v, nm⟩ : EnvPath).ver then
            { d with envs := d.envs.filter (fun e => e.name != (⟨v, nm⟩ : EnvPath).name) }
          else d) ∘
        (fun d : RootEntry =>
          if d.name == v then { d with envs := d.envs ++ [b] } else d)) x = id x := by
    intro x hx
    by_cases hxv : (x.name == v) = true
    · have henvs : x.envs.filter (fun e => e.name != nm) = x.envs ∧
          [b].filter (fun e => e.name != nm) = [] := by
        constructor
        · cases hf : findDir reg v with
          | none =>
            have hnd : mkdirParent reg v = reg ++ [⟨v, true, []⟩] := by
              simp [mkdirParent, hf]
            rw [hnd] at hx
            rcases List.mem_append.mp hx with hxin | hxin
            · exfalso
              have := List.find?_eq_none.mp hf x hxin
              exact this hxv
            · have hxeq : x = ⟨v, true, []⟩ := by simpa using hxin
              subst hxeq
              rfl
          | some d =>
            have hnd : mkdirParent reg v = reg := by simp [mkdirParent, hf]
            rw [hnd] at hx
            have hdmem := (find?_name_mem RootEntry.name hf).1
            have hdname := (find?_name_mem RootEntry.name hf).2
            have hxd : x = d :=
              List.inj_on_of_nodup_map hnodup hx hdmem
                (by rw [hdname]; exact beq_iff_eq.mp hxv)
            rw [hxd]
            have hdisdir : d.isDir = true := by
              unfold parentBlocked at hparent
              rw [hf] at hparent
              simpa using hparent
            have hnoentry : findEntry d nm = none := by
              unfold pathExistsUnder at hnotex
              rw [hf] at hnotex
              simp [hdisdir] at hnotex
              simpa [Option.isNone_iff_eq_none] using hnotex
            rw [List.filter_eq_self]
            intro e he
            have := List.find?_eq_none.mp hnoentry e he
            simpa using this
        · simp [hb]
      simp only [Function.comp_apply, id_eq, if_pos hxv]
      rw [List.filter_append, henvs.1, henvs.2, List.append_nil]
    · simp only [Function.comp_apply, id_eq, if_neg hxv]
  rw [List.map_congr_left key, List.map_id]

/-- C7: a create invocation whose delegated environment creation returns a
non-zero outcome fails with `CreationFailed`, and the partially-created target
tree is removed entirely first: the resulting registry is exactly the
pre-state plus at most the (empty) parent version directory, and nothing
exists at the target path afterwards. -/
theorem create_failure_cleanup (reg : Registry) (pythons : List (String × String))
    (defaultVersion : Option String) (args : CreateArgs) (venv : VenvRun) (v : String)
    (hwf : reg.Wf)
    (hv : resolveVersion args.version defaultVersion = some v)
    (hpy : pythons.lookup v ≠ none)
    (hnotex : pathExistsUnder reg v args.name = false)
    (hparent : parentBlocked reg v = false)
    (hrc : venv.rc ≠ 0) :
    cmd_create reg pythons defaultVersion args venv
      = (.exitCreationFailed venv.out, mkdirParent reg v) ∧
    pathExistsUnder (mkdirParent reg v) v args.name = false := by
  have hstate : cmd_create reg pythons defaultVersion args venv
      = (.exitCreationFailed venv.out,
         rmtreeEnv (addEnv (mkdirParent reg v) v ⟨args.name, true, venv.builtMarker⟩)
           ⟨v, args.name⟩) := by
    simp [cmd_create, hv, Option.isNone_iff_eq_none, hpy, hnotex, hparent,
      bne_iff_ne, hrc]
  rw [create_cleanup_eq reg v args.name ⟨args.name, true, venv.builtMarker⟩ rfl
    hwf.1 hnotex hparent] at hstate
  refine ⟨hstate, ?_⟩
  cases hf : findDir reg v with
  | some d =>
    have : mkdirParent reg v = reg := by simp [mkdirParent, hf]
    rw [this]
    exact hnotex
  | none =>
    have hnd : mkdirParent reg v = reg ++ [⟨v, true, []⟩] := by simp [mkdirParent, hf]
    rw [hnd]
    unfold pathExistsUnder findDir
    rw [List.find?_append]
    unfold findDir at hf
    rw [hf]
    simp [findEntry]

/-- Concrete instance of `create_failure_cleanup`: a failing delegated
creation of `beta` under the fresh tag `3.12` leaves only the empty parent
directory behind. -/
theorem create_failure_cleanup_witness :
    cmd_create regOne [("3.12", "/usr/bin/python3.12")] none
      ⟨some "3.12", "beta"⟩ ⟨1, "boom", true⟩
      = (.exitCreationFailed "boom", mkdirParent regOne "3.12") ∧
    pathExistsUnder (mkdirParent regOne "3.12") "3.12" "beta" = false :=
  create_failure_cleanup regOne [("3.12", "/usr/bin/python3.12")] none
    ⟨some "3.12", "beta"⟩ ⟨1, "boom", true⟩ "3.12"
    (by decide) (by decide) (by decide) (by decide) (by decide) (by decide)

/-- No key segment is below itself. -/
theorem segLt_irrefl (a : Option Int) : segLt a a = false := by
  cases a <;> simp [segLt]

/-- The segment order is asymmetric. -/
theorem segLt_asymm {a b : Option Int} (h : segLt a b = true) : segLt b a = false := by
  cases a <;> cases b <;> simp [segLt] at *
  all_goals omega

/-- The segment order is transitive. -/
theorem segLt_trans {a b c : Option Int} (h1 : segLt a b = true) (h2 : segLt b c = true) :
    segLt a c = true := by
  cases a <;> cases b <;> cases c <;> simp [segLt] at *
  all_goals omega

/-- Any two key segments are comparable. -/
theorem segLt_connex (a b : Option Int) : segLt a b = true ∨ a = b ∨ segLt b a = true := by
  cases a <;> cases b <;> simp [segLt]
  all_goals omega

/-- The key-tuple order is asymmetric. -/
theorem keyLt_asymm : ∀ (x y : List (Option Int)), keyLt x y = true → keyLt y x = false := by
  intro x
  induction x with
  | nil => intro y h; cases y <;> simp [keyLt] at h ⊢
  | cons a as ih =>
    intro y h
    cases y with
    | nil => simp [keyLt] at h
    | cons b bs =>
      simp only [keyLt, Bool.or_eq_true, Bool.and_eq_true, beq_iff_eq] at h
      rcases h with h | ⟨heq, hk⟩
      · have hba := segLt_asymm h
        have hne : b ≠ a := by
          intro he
          rw [he] at h
          rw [segLt_irrefl] at h
          exact Bool.false_ne_true h
        simp [keyLt, hba, hne]
      · subst heq
        simp [keyLt, segLt_irrefl, ih bs hk]

/-- The key-tuple order is transitive. -/
theorem keyLt_trans : ∀ (x y z : List (Option Int)),
    keyLt x y = true → keyLt y z = true → keyLt x z = true := by
  intro x
  induction x with
  | nil =>
    intro y z h1 h2
    cases y with
    | nil => simp [keyLt] at h1
    | cons b bs =>
      cases z with
      | nil => simp [keyLt] at h2
      | cons c cs => simp [keyLt]
  | cons a as ih =>
    intro y z h1 h2
    cases y with
    | nil => simp [keyLt] at h1
    | cons b bs =>
      cases z with
      | nil => simp [keyLt] at h2
      | cons c cs =>
        simp only [keyLt, Bool.or_eq_true, Bool.and_eq_true, beq_iff_eq] at h1 h2 ⊢
        rcases h1 with h1 | ⟨he1, hk1⟩
        · rcases h2 with h2 | ⟨he2, hk2⟩
          · exact Or.inl (segLt_trans h1 h2)
          · exact Or.inl (he2 ▸ h1)
        · rcases h2 with h2 | ⟨he2, hk2⟩
          · exact Or.inl (he1 ▸ h2)
          · exact Or.inr ⟨he1.trans he2, ih bs cs hk1 hk2⟩

/-- Any two key tuples are comparable. -/
theorem keyLt_connex : ∀ (x y : List (Option Int)),
    keyLt x y = true ∨ x = y ∨ keyLt y x = true := by
  intro x
  induction x with
  | nil => intro y; cases y <;> simp [keyLt]
  | cons a as ih =>
    intro y
    cases y with
    | nil => simp [keyLt]
    | cons b bs =>
      simp only [keyLt, Bool.or_eq_true, Bool.and_eq_true, beq_iff_eq, List.cons.injEq]
      rcases segLt_connex a b with h | h | h
      · exact Or.inl (Or.inl h)
      · subst h
        rcases ih bs with h | h | h
        · exact Or.inl (Or.inr ⟨rfl, h⟩)
        · exact Or.inr (Or.inl ⟨rfl, h⟩)
        · exact Or.inr (Or.inr (Or.inr ⟨rfl, h⟩))
      · exact Or.inr (Or.inr (Or.inl h))

/-- The tag comparison used by the sort is transitive. -/
theorem versionLE_trans (a b c : String) (h1 : versionLE a b = true)
    (h2 : versionLE b c = true) : versionLE a c = true := by
  unfold versionLE versionLt at h1 h2 ⊢
  rw [Bool.not_eq_true'] at h1 h2 ⊢
  by_contra hcc
  rw [Bool.not_eq_false] at hcc
  rcases keyLt_connex (version_key a) (version_key b) with h | h | h
  · have := keyLt_trans _ _ _ hcc h
    rw [this] at h2
    simp at h2
  · rw [h] at hcc
    rw [hcc] at h2
    simp at h2
  · rw [h] at h1
    simp at h1

/-- The tag comparison used by the sort is total. -/
theorem versionLE_total (a b : String) : (versionLE a b || versionLE b a) = true := by
  unfold versionLE versionLt
  cases h : keyLt (version_key b) (version_key a)
  · simp
  · simp [keyLt_asymm _ _ h]

/-- C3: the version tags printed by `cmd_list` are exactly the tags of the
registry, ordered by the `version_key` comparison — split on `.` and `-`,
compare segment-by-segment with numeric segments compared as integers and
non-numeric segments after all numeric ones.  In particular `3.9` sorts
strictly before `3.10` and `3.10` strictly before `3.11-arm64`, unlike the
lexicographic string order, under which `3.10` precedes `3.9`. -/
theorem list_version_order (reg : Registry) :
    (sortedVersionTags reg).Perm ((envs_by_version reg).map Prod.fst) ∧
    List.Pairwise (fun a b => versionLE a b = true) (sortedVersionTags reg) ∧
    versionLt "3.9" "3.10" = true ∧
    versionLt "3.10" "3.11-arm64" = true ∧
    "3.10".data < "3.9".data :=
  ⟨List.mergeSort_perm _ _,
   List.sorted_mergeSort versionLE_trans versionLE_total _,
   by decide, by decide, by decide⟩

/-- A version tag appearing on no directory of the registry has no entry in
the `envs_by_version` mapping. -/
theorem lookup_envs_by_version_none (rest : List RootEntry) (v : String)
    (hnot : ∀ d ∈ rest, d.name ≠ v) :
    (envs_by_version rest).lookup v = none := by
  induction rest with
  | nil => rfl
  | cons a l ih =>
    have htail : ∀ d ∈ l, d.name ≠ v := fun d hd => hnot d (List.mem_cons_of_mem a hd)
    by_cases had : a.isDir = true
    · have hne : (v == a.name) = false := by
        simp only [beq_eq_false_iff_ne, ne_eq]
        exact fun he => hnot a (List.mem_cons_self a l) he.symm
      simp only [envs_by_version, List.filterMap_cons, had, if_true] at ih ⊢
      rw [List.lookup_cons]
      rw [hne]
      exact ih htail
    · simp only [envs_by_version, List.filterMap_cons, had, if_false] at ih ⊢
      exact ih htail

/-- Under distinct root names, the `envs_by_version` mapping of a tag is
determined by that tag's own directory: its marker-filtered entries when it
is a directory, nothing otherwise. -/
theorem lookup_envs_by_version (reg : Registry) (hn : (reg.map RootEntry.name).Nodup)
    (v : String) :
    (envs_by_version reg).lookup v
      = (match findDir reg v with
         | some d =>
           if d.isDir then some (d.envs.filter (fun e => e.hasMarker)) else none
         | none => none) := by
  induction reg with
  | nil => rfl
  | cons a rest ih =>
    simp only [List.map_cons, List.nodup_cons] at hn
    by_cases hav : (a.name == v) = true
    · have hveq : a.name = v := beq_iff_eq.mp hav
      have hfd : findDir (a :: rest) v = some a := List.find?_cons_of_pos rest hav
      rw [hfd]
      have htail : ∀ d ∈ rest, d.name ≠ v := by
        intro d hd he
        apply hn.1
        rw [hveq, ← he]
        exact List.mem_map_of_mem RootEntry.name hd
      by_cases had : a.isDir = true
      · simp only [envs_by_version, List.filterMap_cons, had, if_true]
        rw [List.lookup_cons]
        have hva : (v == a.name) = true := by simp [hveq]
        rw [hva]
      · simp only [envs_by_version, List.filterMap_cons, had, if_false]
        rw [if_neg (by simp [had])]
        exact lookup_envs_by_version_none rest v htail
    · have hfd : findDir (a :: rest) v = findDir rest v := List.find?_cons_of_neg rest hav
      rw [hfd]
      by_cases had : a.isDir = true
      · simp only [envs_by_version, List.filterMap_cons, had, if_true]
        rw [List.lookup_cons]
        have hva : (v == a.name) = false := by
          simp only [beq_eq_false_iff_ne, ne_eq]
          intro he
          exact hav (by simp [he])
        rw [hva]
        exact ih hn.2
      · simp only [envs_by_version, List.filterMap_cons, had, if_false]
        exact ih hn.2

/-- The §4.1 existence check holds exactly when some registry directory named
`v` passes the `find_envs_by_name` validity check for `name`. -/
theorem environmentExists_iff (reg : Registry) (hwf : reg.Wf) (v name : String) :
    environmentExists reg v name = true ↔
      ∃ d ∈ reg, d.name = v ∧ d.isDir = true ∧ isValidEnvIn d name = true := by
  constructor
  · intro h
    unfold environmentExists at h
    cases hf : findDir reg v with
    | none => rw [hf] at h; simp at h
    | some d =>
      rw [hf] at h
      obtain ⟨hmem, hname⟩ := find?_name_mem RootEntry.name hf
      rw [Bool.and_eq_true] at h
      refine ⟨d, hmem, hname, h.1, ?_⟩
      have h2 := h.2
      cases hfe : findEntry d name with
      | none => rw [hfe] at h2; simp at h2
      | some e =>
        rw [hfe] at h2
        unfold isValidEnvIn
        rw [hfe]
        rw [Bool.and_eq_true] at h2
        exact h2.2
  · rintro ⟨d, hmem, hname, hdir, hval⟩
    have hf : findDir reg v = some d := find?_name_eq_of_mem RootEntry.name hwf.1 hmem hname
    unfold environmentExists
    rw [hf]
    unfold isValidEnvIn at hval
    cases hfe : findEntry d name with
    | none => rw [hfe] at hval; simp at hval
    | some e =>
      rw [hfe] at hval
      have hm : e.hasMarker = true := hval
      have hmem2 := (find?_name_mem EnvEntry.name hfe).1
      have hisdir : e.isDir = true := (((hwf.2 d hmem).2.2 e hmem2).2 : e.Wf) hm
      simp [hdir, hfe, hm, hisdir]

/-- C4: for every version tag `v` and name, a subdirectory without the marker
file is never reported by the list operation and never counted as a match by
the resolver scan: `name` appears in the `v` section of the listing, and
`(v, ROOT/v/name)` is among the resolver's matches, each exactly when the
§4.1 existence check holds — the directory exists and contains the marker
file. -/
theorem marker_file_required (reg : Registry) (hwf : reg.Wf) (v name : String) :
    ((∃ s ∈ cmd_list_sections reg, s.1 = v ∧ name ∈ s.2) ↔
      environmentExists reg v name = true) ∧
    ((v, (⟨v, name⟩ : EnvPath)) ∈ find_envs_by_name reg name true ↔
      environmentExists reg v name = true) := by
  constructor
  · constructor
    · rintro ⟨s, hs, hsv, hname⟩
      simp only [cmd_list_sections, List.mem_filterMap] at hs
      obtain ⟨v', hv', hfs⟩ := hs
      split at hfs
      · exact absurd hfs (by simp)
      · rw [Option.some.injEq] at hfs
        subst hfs
        have hv'v : v' = v := hsv
        subst hv'v
        rw [(List.mergeSort_perm _ _).mem_iff, List.mem_map] at hname
        obtain ⟨e, hemem, hename⟩ := hname
        rw [lookup_envs_by_version reg hwf.1 v'] at hemem
        cases hfd : findDir reg v' with
        | none => rw [hfd] at hemem; simp at hemem
        | some d =>
          rw [hfd] at hemem
          by_cases hdir : d.isDir = true
          · simp only [hdir, if_true, Option.getD_some] at hemem
            have hed : e ∈ d.envs := List.mem_of_mem_filter hemem
            have hm : e.hasMarker = true := List.of_mem_filter hemem
            obtain ⟨hdmem, hdname⟩ := find?_name_mem RootEntry.name hfd
            refine (environmentExists_iff reg hwf v' name).mpr ⟨d, hdmem, hdname, hdir, ?_⟩
            have hfe : findEntry d name = some e :=
              find?_name_eq_of_mem EnvEntry.name ((hwf.2 d hdmem).2 : d.Wf).1 hed hename
            unfold isValidEnvIn
            rw [hfe]
            exact hm
          · simp [hdir] at hemem
    · intro h
      obtain ⟨d, hdmem, hdname, hdir, hval⟩ := (environmentExists_iff reg hwf v name).mp h
      unfold isValidEnvIn at hval
      cases hfe : findEntry d name with
      | none => rw [hfe] at hval; simp at hval
      | some e =>
        rw [hfe] at hval
        have hm : e.hasMarker = true := hval
        obtain ⟨hemem, hename⟩ := find?_name_mem EnvEntry.name hfe
        have hfd : findDir reg v = some d :=
          find?_name_eq_of_mem RootEntry.name hwf.1 hdmem hdname
        have hlook : (envs_by_version reg).lookup v
            = some (d.envs.filter (fun e => e.hasMarker)) := by
          rw [lookup_envs_by_version reg hwf.1 v, hfd]
          simp [hdir]
        have hefil : e ∈ d.envs.filter (fun e => e.hasMarker) :=
          List.mem_filter.mpr ⟨hemem, hm⟩
        have hnonempty : d.envs.filter (fun e => e.hasMarker) ≠ [] :=
          List.ne_nil_of_mem hefil
        have hvmem : v ∈ sortedVersionTags reg := by
          unfold sortedVersionTags
          rw [(List.mergeSort_perm _ _).mem_iff, List.mem_map]
          refine ⟨(v, d.envs.filter (fun e => e.hasMarker)), ?_, rfl⟩
          unfold envs_by_version
          rw [List.mem_filterMap]
          exact ⟨d, hdmem, by simp [hdir, hdname]⟩
        simp only [cmd_list_sections, List.mem_filterMap]
        refine ⟨(v, ((d.envs.filter (fun e => e.hasMarker)).map EnvEntry.name).mergeSort
          (fun a b => a ≤ b)), ⟨v, hvmem, ?_⟩, rfl, ?_⟩
        · rw [hlook]
          simp [List.isEmpty_iff, hnonempty]
        · rw [(List.mergeSort_perm _ _).mem_iff, List.mem_map]
          exact ⟨e, hefil, hename⟩
  · rw [find_envs_by_name_true_eq, scanMatches_eq_map_filter]
    constructor
    · intro hmem
      rw [List.mem_map] at hmem
      obtain ⟨d, hd, heq⟩ := hmem
      have hdmem := List.mem_of_mem_filter hd
      have hcond := List.of_mem_filter hd
      rw [Bool.and_eq_true] at hcond
      have hname : d.name = v := by
        have := congrArg Prod.fst heq
        simpa using this
      exact (environmentExists_iff reg hwf v name).mpr ⟨d, hdmem, hname, hcond.1, hcond.2⟩
    · intro h
      obtain ⟨d, hdmem, hdname, hdir, hval⟩ := (environmentExists_iff reg hwf v name).mp h
      rw [List.mem_map]
      exact ⟨d, List.mem_filter.mpr ⟨hdmem, by simp [hdir, hval]⟩, by rw [hdname]⟩

/-- Concrete instance of `marker_file_required` on `regTwo`: the markerless
directory `junk` under `3.10` is not a resolver match (and indeed fails the
existence check), while `web` under `3.10` is. -/
theorem marker_file_required_witness :
    ((("3.10", (⟨"3.10", "junk"⟩ : EnvPath)) ∈ find_envs_by_name regTwo "junk" true) ↔
      environmentExists regTwo "3.10" "junk" = true) ∧
    environmentExists regTwo "3.10" "junk" = false ∧
    ((("3.10", (⟨"3.10", "web"⟩ : EnvPath)) ∈ find_envs_by_name regTwo "web" true) ↔
      environmentExists regTwo "3.10" "web" = true) :=
  ⟨(marker_file_required regTwo (by decide) "3.10" "junk").2,
   by decide,
   (marker_file_required regTwo (by decide) "3.10" "web").2⟩
